import Mathlib

/-!
Verification of the dependency-resolution and remote-orchestration subsystem of
the orcdkestrator serverless plugin.

The development shallowly embeds the TypeScript sources:
  - the dependency scanner (ServerlessDependencyScanner): path-safety check,
    config loading and the regex cascade extracting stack identifiers from
    SSM parameter paths and CloudFormation import references;
  - the stack inspector (StackInspector): readiness classification, derived
    environment variables and the inspection event/result contract;
  - the plugin orchestration (ServerlessPlugin): environment-variable
    resolution and the remote deployment sequence.

Strings are modelled as lists of characters at the algorithmic level; the
JavaScript regexes of the source are embedded as dedicated matchers with
leftmost-match, greedy-with-backtracking semantics.  Effectful collaborators
(filesystem, YAML parser, CloudFormation/SSM clients, event bus) are modelled
as explicit environments; emitted notifications are collected in lists.
Functions whose recursion is not structural take an explicit fuel argument
that is always instantiated with a sufficient bound, keeping every
definition kernel-computable.
-/

namespace Orcdk

/-- JavaScript falsy-aware defaulting for strings: the expression
a OR b where the empty string counts as absent. -/
def jsOr (a : Option String) (b : String) : String :=
  match a with
  | some s => if s = "" then b else s
  | none => b

/-- Association-list lookup, first match wins (models reading a JS object key). -/
def lookupRec (k : String) : List (String × String) → Option String
  | [] => none
  | (k', v) :: t => if k' = k then some v else lookupRec k t

/-- Assignment into a JS object: overwrite the entry in place when the key
exists, otherwise append. -/
def recInsert (k v : String) (r : List (String × String)) : List (String × String) :=
  if r.any (fun p => p.1 = k) then
    r.map (fun p => if p.1 = k then (k, v) else p)
  else
    r ++ [(k, v)]

/-- Object spread: all entries of the second record assigned over the first. -/
def mergeSpread (a b : List (String × String)) : List (String × String) :=
  b.foldl (fun acc p => recInsert p.1 p.2 acc) a

/-- Deduplicate keeping the first occurrence (models collecting into a JS Set);
the accumulator records the identifiers already present in the set. -/
def dedupFirstAux (seen : List String) : List String → List String
  | [] => []
  | x :: t =>
    if seen.contains x then dedupFirstAux seen t
    else x :: dedupFirstAux (x :: seen) t

/-- Deduplicate keeping the first occurrence (models collecting into a JS Set). -/
def dedupFirst (s : List String) : List String :=
  dedupFirstAux [] s

/-- Split a character list at every occurrence of the separator character
(models JavaScript String.split with a one-character separator: empty
segments are preserved). -/
def splitChar (c : Char) : List Char → List (List Char)
  | [] => [[]]
  | x :: t =>
    if x = c then [] :: splitChar c t
    else
      match splitChar c t with
      | h :: r => (x :: h) :: r
      | [] => [[x]]

/-- ASCII alphanumeric test, matching the JS character class of letters and digits. -/
def isAlnum (c : Char) : Bool :=
  (('a' ≤ c && c ≤ 'z') || ('A' ≤ c && c ≤ 'Z') || ('0' ≤ c && c ≤ '9'))

/-- Split a list at the first closing brace: returns the characters before it
and the characters after it.  This is the greedy body of the regex piece
matching one or more non-brace characters followed by a closing brace. -/
def findClose : List Char → Option (List Char × List Char)
  | [] => none
  | x :: t =>
    if x = '}' then some ([], t)
    else
      match findClose t with
      | some (a, b) => some (x :: a, b)
      | none => none

/-- Match an interpolation placeholder at the head of the input: a dollar sign,
an opening brace, one or more non-closing-brace characters, and a closing
brace.  Returns the inside and the remainder. -/
def placeholderAt : List Char → Option (List Char × List Char)
  | '$' :: '{' :: t =>
    match findClose t with
    | some (ins, rest) => if ins = [] then none else some (ins, rest)
    | none => none
  | _ => none

/-- Replace every placeholder occurrence by a single character, scanning left to
right (models a global regex replace of placeholders).  Fuel-driven; fuel
equal to the input length is always enough since every step consumes at
least one character. -/
def replacePHFuel (c : Char) : Nat → List Char → List Char
  | 0, s => s
  | _ + 1, [] => []
  | f + 1, x :: t =>
    match placeholderAt (x :: t) with
    | some (_, rest) => c :: replacePHFuel c f rest
    | none => x :: replacePHFuel c f t

/-- Replace every placeholder by a single character. -/
def replacePH (c : Char) (s : List Char) : List Char :=
  replacePHFuel c s.length s

/-! ## Dependency scanner: the regex cascade of ServerlessDependencyScanner

The scanner's regexes are embedded as dedicated matchers.  Each matcher
realises the leftmost-match, greedy-with-backtracking semantics of the
JavaScript engine for its specific pattern. -/

/-- The literal characters of the dependency-marker suffix. -/
def stackLit : List Char := ['-', 's', 't', 'a', 'c', 'k']

/-- The literal characters of the marker token. -/
def stackWord : List Char := ['s', 't', 'a', 'c', 'k']

/-- Tail piece of the interpolated-stack capture: greedily consume non-slash
characters, then the literal marker suffix.  Preferring the recursive call
realises the greedy semantics (the marker is matched at its last possible
occurrence before a slash). -/
def matchB : List Char → Option (List Char)
  | [] => none
  | x :: t =>
    if x = '/' then none
    else
      match matchB t with
      | some r => some (x :: r)
      | none => if stackLit.isPrefixOf (x :: t) then some stackLit else none

/-- Head piece of the interpolated-stack capture: greedily consume non-slash
characters, then a placeholder, then the tail piece.  Preferring the
recursive call makes the leading character class greedy, exactly as the
backtracking engine does. -/
def matchA : List Char → Option (List Char)
  | [] => none
  | x :: t =>
    if x = '/' then none
    else
      match matchA t with
      | some r => some (x :: r)
      | none =>
        match placeholderAt (x :: t) with
        | some (ins, rest) =>
          match matchB rest with
          | some b => some ('$' :: '{' :: (ins ++ '}' :: b))
          | none => none
        | none => none

/-- The interpolated-stack pattern of extractStackFromSSMPath: a slash, then
non-slash characters, a placeholder, non-slash characters and the marker
suffix.  Returns the capture group of the leftmost match (the part after
the slash); used both as the test and as the match of the source. -/
def matchInterp : List Char → Option (List Char)
  | [] => none
  | x :: t =>
    if x = '/' then
      match matchA t with
      | some r => some r
      | none => matchInterp t
    else matchInterp t

/-- Longest prefix of the input that ends in the marker suffix (the greedy
dot-star closure followed by the literal suffix). -/
def capTail : List Char → Option (List Char)
  | [] => none
  | x :: t =>
    match capTail t with
    | some r => some (x :: r)
    | none => if stackLit.isPrefixOf (x :: t) then some stackLit else none

/-- The capture of one-or-more characters followed by the marker suffix:
at least one character, then the longest continuation ending in the suffix. -/
def capDotPlus : List Char → Option (List Char)
  | [] => none
  | x :: t => (capTail t).map (fun r => x :: r)

/-- First structural pattern of extractBaseStackName: a placeholder, a dash,
then the capture of one-or-more characters ending in the marker suffix.
Scans left to right for the leftmost position where the whole pattern
matches and returns its capture group. -/
def matchP1 : List Char → Option (List Char)
  | [] => none
  | x :: t =>
    match
      (match placeholderAt (x :: t) with
       | some (_, rest) =>
         match rest with
         | '-' :: r2 => capDotPlus r2
         | _ => none
       | none => none) with
    | some r => some r
    | none => matchP1 t

/-- Core of the second structural pattern: the longest (possibly empty)
run of characters followed by a dash, a placeholder and the marker suffix;
returns that run. -/
def p2q : List Char → Option (List Char)
  | [] => none
  | x :: t =>
    match p2q t with
    | some r => some (x :: r)
    | none =>
      if x = '-' then
        match placeholderAt t with
        | some (_, rest) => if stackLit.isPrefixOf rest then some [] else none
        | none => none
      else none

/-- Second structural pattern of extractBaseStackName: a nonempty greedy
capture, a dash, a placeholder, a dash and the literal marker token.
Since the leading capture absorbs arbitrary characters, the leftmost match
starts at the beginning; the result is the first capture group. -/
def matchP2 : List Char → Option (List Char)
  | [] => none
  | x :: t => (p2q t).map (fun r => x :: r)

/-- Core of the third structural pattern: the longest (possibly empty) run of
characters ending with the marker suffix and followed by a dash and a
placeholder; returns the run including the suffix. -/
def p3q : List Char → Option (List Char)
  | [] => none
  | x :: t =>
    match p3q t with
    | some r => some (x :: r)
    | none =>
      if stackLit.isPrefixOf (x :: t) then
        match (x :: t).drop 6 with
        | '-' :: r2 => if (placeholderAt r2).isSome then some stackLit else none
        | _ => none
      else none

/-- Third structural pattern of extractBaseStackName: a nonempty greedy capture
ending in the marker suffix, followed by a dash and a placeholder.  The
leftmost match starts at the beginning; the result is the capture group. -/
def matchP3 : List Char → Option (List Char)
  | [] => none
  | x :: t => (p3q t).map (fun r => x :: r)

/-- Contiguous-substring test (models JavaScript String.includes). -/
def containsSeq (p : List Char) : List Char → Bool
  | [] => p.isEmpty
  | x :: t => p.isPrefixOf (x :: t) || containsSeq p t

/-- Suffix test (models JavaScript String.endsWith). -/
def isSuffixL (p s : List Char) : Bool :=
  p.reverse.isPrefixOf s.reverse

/-- Remove the leading run and the trailing run of dashes (the anchored
dash-run alternation regex of the source). -/
def trimDashes (s : List Char) : List Char :=
  ((s.dropWhile (fun c => c = '-')).reverse.dropWhile (fun c => c = '-')).reverse

/-- Collapse every maximal run of the given character to a single occurrence
(models the run-collapsing replaces of the source).  Fuel-driven; fuel equal
to the input length is always sufficient. -/
def collapseRunsFuel (c : Char) : Nat → List Char → List Char
  | 0, s => s
  | _ + 1, [] => []
  | f + 1, x :: t =>
    if x = c then x :: collapseRunsFuel c f (t.dropWhile (fun y => y = c))
    else x :: collapseRunsFuel c f t

/-- Collapse every maximal run of the given character to a single occurrence. -/
def collapseRuns (c : Char) (s : List Char) : List Char :=
  collapseRunsFuel c s.length s

/-- Join segments with single dashes (models Array.join with a dash). -/
def joinDashes : List (List Char) → List Char
  | [] => []
  | [x] => x
  | x :: y :: t => x ++ '-' :: joinDashes (y :: t)

/-- ServerlessDependencyScanner.isKnownStackName: the lower-cased name contains
one of the well-known infrastructure tokens. -/
def isKnownStackName (name : List Char) : Bool :=
  let lower := name.map Char.toLower
  [['v','p','c'], ['r','d','s'], ['c','o','g','n','i','t','o'],
   ['a','p','i','-','g','a','t','e','w','a','y'],
   ['d','y','n','a','m','o','d','b'], ['s','3'], ['l','a','m','b','d','a'],
   ['e','c','s'], ['e','k','s']].any (fun p => containsSeq p lower)

/-- ServerlessDependencyScanner.extractBaseStackName: try the three ordered
structural patterns, otherwise collapse placeholders to dashes, trim and
collapse dash runs, and complete the marker suffix.  The first pattern's
second group is absent, so its first capture is returned; the second
pattern's second group is the marker token, so the first capture is
completed with the suffix; the third pattern returns its first capture. -/
def extractBaseStackNameL (s : List Char) : Option (List Char) :=
  match matchP1 s with
  | some m1 => some m1
  | none =>
  match matchP2 s with
  | some m1 => some (m1 ++ stackLit)
  | none =>
  match matchP3 s with
  | some m1 => some m1
  | none =>
    let cleanName := collapseRuns '-' (trimDashes (replacePH '-' s))
    if isSuffixL stackLit cleanName then some cleanName
    else
      match
        (if containsSeq stackWord cleanName && !(isSuffixL stackWord cleanName) then
          match (splitChar '-' cleanName).findIdx? (fun p => p = stackWord) with
          | some i => some (joinDashes ((splitChar '-' cleanName).take (i + 1)))
          | none => none
        else none) with
      | some r => some r
      | none => if cleanName = [] then none else some (cleanName ++ stackLit)

/-- The trimmed, dash-collapsed placeholder-free form used by the fallback of
extractBaseStackName. -/
def cleanNameOf (s : List Char) : List Char :=
  collapseRuns '-' (trimDashes (replacePH '-' s))

/-- ServerlessDependencyScanner.extractStackFromSSMPath: if the interpolated
stack pattern matches, reduce its capture with the base-name reducer;
otherwise replace placeholders with wildcards, split on slashes, discard
empty and wildcard-only segments, and scan the segments for a wildcarded
marker segment, a marker-containing or well-known segment, falling back to
the first segment. -/
def findStackPart : List (List Char) → Option (List Char)
  | [] => none
  | part :: rest =>
    if part.contains '*' && containsSeq stackWord part then
      let cleanPart := trimDashes (part.filter (fun c => c != '*'))
      if !cleanPart.isEmpty then some cleanPart
      else if containsSeq stackWord part || isKnownStackName part then some part
      else findStackPart rest
    else if containsSeq stackWord part || isKnownStackName part then some part
    else findStackPart rest

/-- ServerlessDependencyScanner.extractStackFromSSMPath on character lists. -/
def extractStackFromSSMPathL (ssmPath : List Char) : Option (List Char) :=
  match matchInterp ssmPath with
  | some captured => extractBaseStackNameL captured
  | none =>
    let cleanPath := replacePH '*' ssmPath
    let pathParts := (splitChar '/' cleanPath).filter (fun p => !p.isEmpty && p != ['*'])
    match findStackPart pathParts with
    | some r => some r
    | none =>
      match pathParts with
      | [] => none
      | p :: _ => some p

/-- String-level wrapper of the base-name reducer. -/
def extractBaseStackName (s : String) : Option String :=
  (extractBaseStackNameL s.toList).map (fun l => String.mk l)

/-- String-level wrapper of the parameter-path extraction. -/
def extractStackFromSSMPath (s : String) : Option String :=
  (extractStackFromSSMPathL s.toList).map (fun l => String.mk l)

/-! ## Document-level reference scanning

The two global regexes of the scanner share the payload grammar: one or more
elements, each either a character that is neither a dollar sign nor a closing
brace, or a fully nested placeholder, followed by a closing brace.  A bare
dollar sign that does not open a placeholder cannot be consumed by either
alternative, so the engine's backtracking cannot rescue such a position and
the payload match is deterministic. -/

/-- Parse a reference payload from the current position up to the closing
brace; placeholders are consumed atomically.  Returns the payload and the
remainder after the closing brace.  Fuel-driven; sufficient fuel is one more
than the input length. -/
def payloadLoopFuel : Nat → List Char → Option (List Char × List Char)
  | 0, _ => none
  | _ + 1, [] => none
  | f + 1, x :: t =>
    if x = '}' then some ([], t)
    else if x = '$' then
      match placeholderAt (x :: t) with
      | some (ins, rest) =>
        match payloadLoopFuel f rest with
        | some (p, r) => some ('$' :: '{' :: (ins ++ '}' :: p), r)
        | none => none
      | none => none
    else
      match payloadLoopFuel f t with
      | some (p, r) => some (x :: p, r)
      | none => none

/-- The opening literal of a parameter-path reference. -/
def kindSSM : List Char := ['$', '{', 's', 's', 'm', ':']

/-- The opening literal of a stack-output reference. -/
def kindCF : List Char := ['$', '{', 'c', 'f', ':']

/-- Global scan for references of one kind: at each position try to match the
opening literal followed by a nonempty payload and the closing brace; on a
match, record the payload and continue after it (the exec loop of the
source); otherwise advance one character. -/
def scanRefsFuel (kind : List Char) : Nat → List Char → List (List Char)
  | 0, _ => []
  | _ + 1, [] => []
  | f + 1, x :: t =>
    if kind.isPrefixOf (x :: t) then
      match payloadLoopFuel (t.length + 1) ((x :: t).drop kind.length) with
      | some (p, r) => if p.isEmpty then scanRefsFuel kind f t else p :: scanRefsFuel kind f r
      | none => scanRefsFuel kind f t
    else scanRefsFuel kind f t

/-- Global scan for references of one kind. -/
def scanRefs (kind : List Char) (s : List Char) : List (List Char) :=
  scanRefsFuel kind (s.length + 1) s

/-- ServerlessDependencyScanner.scanSSMReferences: collect the stack names
extracted from every parameter-path payload into a set (dependency-detected
notifications are emitted alongside; they carry no data the claims rely on
and are elided here). -/
def scanSSMReferences (yamlString : String) : List String :=
  dedupFirst ((scanRefs kindSSM yamlString.toList).filterMap
    (fun p => (extractStackFromSSMPathL p).map (fun l => String.mk l)))

/-- Index of the last occurrence of a character (JavaScript lastIndexOf,
with absence modelled as none instead of a negative sentinel). -/
def lastIdxOf (c : Char) (s : List Char) : Option Nat :=
  match s.reverse.findIdx? (fun y => y = c) with
  | some i => some (s.length - 1 - i)
  | none => none

/-- Stack identifier contributed by one stack-output payload: split at the last
dot into stack expression and output name; a literal stack expression is
used as-is, an interpolated one is reduced with the base-name reducer. -/
def cfDepOf (p : List Char) : Option (List Char) :=
  match lastIdxOf '.' p with
  | some i =>
    if i > 0 then
      let stackName := p.take i
      let outputName := p.drop (i + 1)
      if !stackName.isEmpty && !outputName.isEmpty then
        if containsSeq ['$', '{'] stackName then extractBaseStackNameL stackName
        else some stackName
      else none
    else none
  | none => none

/-- ServerlessDependencyScanner.scanCFImports (notifications elided as above). -/
def scanCFImports (yamlString : String) : List String :=
  dedupFirst ((scanRefs kindCF yamlString.toList).filterMap
    (fun p => (cfDepOf p).map (fun l => String.mk l)))

/-! ## The scanner pipeline

Filesystem, YAML parser and path resolution are modelled as an explicit
environment.  A parsed document is represented by its canonical re-serialised
text (the source loads the document and immediately re-serialises it with
the same library before scanning, so the dump text is the only view of the
document the scanner ever consumes). -/

/-- External collaborators of ServerlessDependencyScanner.  Failures of the
filesystem or the YAML parser are modelled as error results. -/
structure ScanEnv where
  resolve : String → String
  cwd : String
  statSize : String → Except String Nat
  readFile : String → Except String String
  yamlLoad : String → Except String String

/-- The base directory of the containment check: the resolved project root
when one is given (JavaScript truthiness: an empty root falls back to the
working directory), else the current working directory. -/
def scanBaseDir (env : ScanEnv) (projectRoot : Option String) : String :=
  match projectRoot with
  | some r => if r = "" then env.cwd else env.resolve r
  | none => env.cwd

/-- ServerlessDependencyScanner.isPathSafe: the resolved path must start with
the base directory (a string-prefix comparison, expressed on the character
lists of the two strings). -/
def isPathSafe (env : ScanEnv) (filePath : String) (projectRoot : Option String) : Bool :=
  (scanBaseDir env projectRoot).toList.isPrefixOf (env.resolve filePath).toList

/-- The size ceiling enforced before reading: 10 MiB. -/
def maxFileSize : Nat := 10 * 1024 * 1024

/-- ServerlessDependencyScanner.loadConfig: reject oversized files before
reading, then read and parse.  Awaited failures propagate as errors. -/
def loadConfigE (env : ScanEnv) (configPath : String) : Except String String :=
  match env.statSize configPath with
  | Except.error e => Except.error e
  | Except.ok size =>
    if size > maxFileSize then
      Except.error ("File " ++ configPath ++ " exceeds maximum size limit of 10MB")
    else
      match env.readFile configPath with
      | Except.error e => Except.error e
      | Except.ok raw => env.yamlLoad raw

/-- The body of ServerlessDependencyScanner.scanDependencies (the protected
region of its try block): path-safety check, config loading, both reference
scans and the deduplicated union. -/
def scanDependenciesE (env : ScanEnv) (configPath : String) (projectRoot : Option String) :
    Except String (List String) :=
  if !isPathSafe env configPath projectRoot then
    Except.error ("Invalid path: " ++ configPath ++ " is outside project boundaries")
  else
    match loadConfigE env configPath with
    | Except.error e => Except.error e
    | Except.ok doc => Except.ok (dedupFirst (scanSSMReferences doc ++ scanCFImports doc))

/-- ServerlessDependencyScanner.scanDependencies: every failure of the body is
caught and collapsed into the empty dependency set. -/
def scanDependencies (env : ScanEnv) (configPath : String) (projectRoot : Option String) :
    List String :=
  match scanDependenciesE env configPath projectRoot with
  | Except.ok deps => deps
  | Except.error _ => []

/-! ## Stack inspector: StackInspector

CloudFormation descriptor fields are optional, as in the AWS SDK types. -/

/-- One descriptor output entry. -/
structure StackOutput where
  OutputKey : Option String := none
  OutputValue : Option String := none
deriving DecidableEq

/-- One descriptor parameter entry. -/
structure StackParameter where
  ParameterKey : Option String := none
  ParameterValue : Option String := none
deriving DecidableEq

/-- One descriptor tag entry. -/
structure StackTag where
  Key : Option String := none
  Value : Option String := none
deriving DecidableEq

/-- The CloudFormation stack descriptor (the fields the inspector reads). -/
structure Stack where
  StackName : Option String := none
  StackStatus : Option String := none
  Outputs : Option (List StackOutput) := none
  Parameters : Option (List StackParameter) := none
  Tags : Option (List StackTag) := none
deriving DecidableEq

/-- StackInspector.isStackReady: the status, defaulted to the empty string,
must be one of the two complete statuses. -/
def isStackReady (stack : Stack) : Bool :=
  [("CREATE_COMPLETE" : String), "UPDATE_COMPLETE"].contains (stack.StackStatus.getD (""))

/-- StackInspector.extractOutputs: copy entries whose key and value are both
present and nonempty (JavaScript truthiness on both fields). -/
def extractOutputs (stack : Stack) : List (String × String) :=
  (stack.Outputs.getD []).foldl (fun acc o =>
    match o.OutputKey, o.OutputValue with
    | some k, some v => if k ≠ "" && v ≠ "" then recInsert k v acc else acc
    | _, _ => acc) []

/-- StackInspector.extractParameters: same shape as extractOutputs. -/
def extractParameters (stack : Stack) : List (String × String) :=
  (stack.Parameters.getD []).foldl (fun acc p =>
    match p.ParameterKey, p.ParameterValue with
    | some k, some v => if k ≠ "" && v ≠ "" then recInsert k v acc else acc
    | _, _ => acc) []

/-- The case-boundary separator insertion of generateEnvVarsFromOutputs: the
global regex inserts an underscore between a lowercase letter immediately
followed by an uppercase letter, resuming after each matched pair. -/
def camelSep : List Char → List Char
  | [] => []
  | [a] => [a]
  | a :: b :: t =>
    if a.isLower && b.isUpper then a :: '_' :: b :: camelSep t
    else a :: camelSep (b :: t)

/-- The environment-variable name derived from an output key: case-boundary
separators inserted, then the whole string upper-cased. -/
def outKeyName (k : String) : String :=
  String.mk ((camelSep k.toList).map Char.toUpper)

/-- StackInspector.generateEnvVarsFromOutputs. -/
def generateEnvVarsFromOutputs (outputs : List (String × String)) : List (String × String) :=
  outputs.foldl (fun acc p => recInsert (outKeyName p.1) p.2 acc) []

/-- Map every non-alphanumeric character to an underscore. -/
def mapNonAlnum (s : List Char) : List Char :=
  s.map (fun c => if isAlnum c then c else '_')

/-- Drop one leading underscore if present (one half of the anchored
underscore alternation regex). -/
def dropOneLeadU : List Char → List Char
  | '_' :: t => t
  | s => s

/-- Remove one leading and one trailing underscore (the anchored alternation
removes exactly one at each boundary; after run-collapsing at most one can
occur on each side). -/
def trimOneU (s : List Char) : List Char :=
  (dropOneLeadU ((dropOneLeadU s).reverse)).reverse

/-- The environment-variable name derived from a configuration-store key:
non-alphanumeric characters to underscores, underscore runs collapsed,
boundary underscores removed, upper-cased. -/
def ssmKeyName (k : String) : String :=
  String.mk ((trimOneU (collapseRuns '_' (mapNonAlnum k.toList))).map Char.toUpper)

/-- StackInspector.generateEnvVarsFromSSM: empty derived names are skipped. -/
def generateEnvVarsFromSSM (ssmParams : List (String × String)) : List (String × String) :=
  ssmParams.foldl (fun acc p =>
    let n := ssmKeyName p.1
    if n = "" then acc else recInsert n p.2 acc) []

/-- The derived environment-variable record of extractRequirements: the object
spread of the output-derived record under the store-derived record. -/
def deriveEnvironmentVariables (outputs ssmParams : List (String × String)) :
    List (String × String) :=
  mergeSpread (generateEnvVarsFromOutputs outputs) (generateEnvVarsFromSSM ssmParams)

/-- JavaScript String.trim on a character list. -/
def trimWS (s : List Char) : List Char :=
  ((s.dropWhile Char.isWhitespace).reverse.dropWhile Char.isWhitespace).reverse

/-- The literal tested with includes before the arn match. -/
def arnContains : List Char := ("arn:aws:cloudformation").toList

/-- The opening literal of the cross-stack arn pattern. -/
def arnLit : List Char := ("arn:aws:cloudformation:").toList

/-- The literal preceding the arn capture group. -/
def stackSlashLit : List Char := ['s', 't', 'a', 'c', 'k', '/']

/-- Split at the first occurrence of a character: the run before it and the
remainder from it. -/
def spanNot (c : Char) (s : List Char) : List Char × List Char :=
  (s.takeWhile (fun y => y != c), s.dropWhile (fun y => y != c))

/-- Try the cross-stack arn pattern at the current position: the arn literal,
two nonempty colon-free fields each followed by a colon, the stack-slash
literal and a nonempty slash-free capture. -/
def arnCaptureAt (s : List Char) : Option (List Char) :=
  if arnLit.isPrefixOf s then
    let r0 := s.drop arnLit.length
    let (a, r1) := spanNot ':' r0
    if a.isEmpty then none
    else
      match r1 with
      | ':' :: r2 =>
        let (b, r3) := spanNot ':' r2
        if b.isEmpty then none
        else
          match r3 with
          | ':' :: r4 =>
            if stackSlashLit.isPrefixOf r4 then
              let cap := (r4.drop 6).takeWhile (fun y => y != '/')
              if cap.isEmpty then none else some cap
            else none
          | _ => none
      | _ => none
  else none

/-- Leftmost match of the cross-stack arn pattern. -/
def arnStackMatch : List Char → Option (List Char)
  | [] => none
  | x :: t =>
    match arnCaptureAt (x :: t) with
    | some c => some c
    | none => arnStackMatch t

/-- StackInspector.extractDependencies: names listed in the Dependencies tag
(split on commas, trimmed), then arn-referenced stacks from output values,
excluding a self-reference, deduplicated. -/
def extractDependencies (stack : Stack) : List String :=
  let tagDeps := (stack.Tags.getD []).foldl (fun acc tg =>
    if tg.Key = some ("Dependencies") then
      match tg.Value with
      | some v =>
        if v ≠ "" then acc ++ ((splitChar ',' v.toList).map (fun d => String.mk (trimWS d)))
        else acc
      | none => acc
    else acc) []
  let outDeps := (stack.Outputs.getD []).foldl (fun acc o =>
    match o.OutputValue with
    | some v =>
      if containsSeq arnContains v.toList then
        match arnStackMatch v.toList with
        | some cap =>
          if stack.StackName = some (String.mk cap) then acc else acc ++ [String.mk cap]
        | none => acc
      else acc
    | none => acc) []
  dedupFirst (tagDeps ++ outDeps)

/-- Caller-supplied profile configuration for an inspection. -/
structure AWSProfileConfig where
  profile : Option String := none
  region : Option String := none
  accessKeyId : Option String := none
  secretAccessKey : Option String := none
  sessionToken : Option String := none

/-- Outcome of the DescribeStacks call as surfaced by getStackDetails: a
descriptor, the typed not-found result (a validation error mentioning
non-existence is converted to null), or a thrown error carrying a message. -/
inductive FetchOutcome where
  | found (stack : Stack)
  | notFound
  | errored (message : String)

/-- External collaborators of one inspection: the control-plane fetch outcome,
the flattened configuration-store snapshot produced by the prefix probes of
extractSSMParameters (which never fails the inspection), and the ambient
region variable. -/
structure InspectEnv where
  fetch : FetchOutcome
  ssmParameters : List (String × String) := []
  awsRegionEnv : Option String := none

/-- StackInspector's requirements record. The stackName field keeps the
optional source value: the non-null assertion of the source is a static
cast, not a runtime check. -/
structure StackRequirements where
  stackName : Option String
  region : String
  outputs : List (String × String)
  parameters : List (String × String)
  environmentVariables : List (String × String)
  dependencies : List String
  status : Option String
  readyForDeployment : Bool
  ssmParameters : List (String × String)
deriving DecidableEq

/-- StackInspector.extractRequirements. -/
def extractRequirements (env : InspectEnv) (stack : Stack) (cfg : AWSProfileConfig) :
    StackRequirements :=
  let outputs := extractOutputs stack
  let parameters := extractParameters stack
  let ssmParameters := env.ssmParameters
  { stackName := stack.StackName
    region := jsOr cfg.region (jsOr env.awsRegionEnv ("us-east-1"))
    outputs := outputs
    parameters := parameters
    environmentVariables := deriveEnvironmentVariables outputs ssmParameters
    dependencies := extractDependencies stack
    status := stack.StackStatus
    readyForDeployment := isStackReady stack
    ssmParameters := ssmParameters }

/-- StackInspector.generateErrorRecommendations: the four-way classification on
the error message (the guard returning an empty list for a falsy thrown
value cannot trigger for thrown Error objects and is not representable in
this message-level model). -/
def generateErrorRecommendations (msg : String) : List String :=
  if containsSeq ("AccessDenied").toList msg.toList
      || containsSeq ("UnauthorizedOperation").toList msg.toList then
    ["Check that your AWS credentials have CloudFormation:DescribeStacks permission",
     "Verify the correct AWS profile is being used",
     "Ensure the stack exists in the correct AWS account"]
  else if containsSeq ("ValidationError").toList msg.toList then
    ["Verify the stack name is correct and exists",
     "Check that you are querying the correct AWS region",
     "Ensure the stack is not in a DELETE_COMPLETE state"]
  else if containsSeq ("does not exist").toList msg.toList then
    ["Create the stack first using CDK or CloudFormation",
     "Verify you are connected to the correct AWS account",
     "Check the correct region is specified"]
  else
    ["Check your internet connection",
     "Verify AWS credentials are configured",
     "Try again with a different AWS profile or region"]

/-- The result record of one inspection. -/
structure StackInspectionResult where
  success : Bool
  requirements : Option StackRequirements := none
  error : Option String := none
  recommendations : Option (List String) := none
deriving DecidableEq

/-- Notifications of the inspector, in emission order. -/
inductive InspectorEvent where
  | beforeStackInspection (stackName : String)
  | afterStackInspection (stackName : String)
  | stackInspectionFailed (stackName : String) (error : String)
deriving DecidableEq

/-- The guidance list of the typed not-found result. -/
def notFoundRecommendations : List String :=
  ["Verify the stack name is correct",
   "Check that the stack exists in the specified region",
   "Ensure your AWS credentials have permission to describe the stack"]

/-- StackInspector.inspectStack: emit the before-inspection notification, then
fetch the descriptor.  A missing stack returns the typed failure result
directly; a found stack derives requirements and emits the
after-inspection notification; a thrown error is caught, the failure
notification is emitted and the classified recommendations returned.
The result is paired with the notifications in emission order. -/
def inspectStack (env : InspectEnv) (stackName : String) (cfg : AWSProfileConfig) :
    StackInspectionResult × List InspectorEvent :=
  match env.fetch with
  | FetchOutcome.notFound =>
    ({ success := false
       error := some ("Stack \x27" ++ stackName ++ "\x27 not found or not accessible")
       recommendations := some notFoundRecommendations },
     [InspectorEvent.beforeStackInspection stackName])
  | FetchOutcome.found stack =>
    let requirements := extractRequirements env stack cfg
    ({ success := true, requirements := some requirements },
     [InspectorEvent.beforeStackInspection stackName,
      InspectorEvent.afterStackInspection stackName])
  | FetchOutcome.errored msg =>
    ({ success := false
       error := some msg
       recommendations := some (generateErrorRecommendations msg) },
     [InspectorEvent.beforeStackInspection stackName,
      InspectorEvent.stackInspectionFailed stackName msg])

/-! ## Plugin orchestration: ServerlessPlugin

Environment-variable resolution and the remote deployment sequence.  The
ambient process environment is an explicit map; the delegated local
deployment and the per-stack inspection results are oracles of the request
environment.  Only plugin-level notifications are collected here: the
inspector publishes its own notifications under distinct names. -/

/-- Plugin notifications, in emission order. -/
inductive PluginEvent where
  | remoteDeployStarted (service : String)
  | remoteDeployCompleted (service : String) (success : Bool)
  | beforeEnvironmentValidation (service : String) (environment : String)
  | environmentValidated (service : String)
  | environmentValidationFailed (service : String)
deriving DecidableEq

/-- The result record of one environment validation. -/
structure EnvValidationResult where
  valid : Bool
  missing : List String
  resolved : List (String × String)

/-- The source chain of one variable: the ambient process value of the bare
name, the environment-scoped override, then the stack-derived value; the
first defined entry wins (Array.find with a definedness test). -/
def sourcesFind (procEnv : String → Option String) (environment : String)
    (varName : String) (stackValue : Option String) : Option String :=
  [procEnv varName, procEnv (environment.toUpper ++ "_" ++ varName), stackValue].findSome? id

/-- The resolution loop of validateEnvironmentVariables: resolved values are
assigned into the result record, unresolved names appended to the missing
list, in declaration order. -/
def resolveLoop (procEnv : String → Option String) (environment : String)
    (acc : List (String × String) × List String) :
    List (String × Option String) → List (String × String) × List String
  | [] => acc
  | (n, sv) :: rest =>
    match sourcesFind procEnv environment n sv with
    | some v => resolveLoop procEnv environment (recInsert n v acc.1, acc.2) rest
    | none => resolveLoop procEnv environment (acc.1, acc.2 ++ [n]) rest

/-- ServerlessPlugin.validateEnvironmentVariables: resolve every declared
variable, report validity as emptiness of the missing list, and emit the
before-validation notification followed by the validated or the
validation-failed notification. -/
def validateEnvironmentVariables (procEnv : String → Option String)
    (serviceName environment : String) (envVars : List (String × Option String)) :
    EnvValidationResult × List PluginEvent :=
  let rm := resolveLoop procEnv environment ([], []) envVars
  let valid := rm.2.isEmpty
  ({ valid := valid, missing := rm.2, resolved := rm.1 },
   [PluginEvent.beforeEnvironmentValidation serviceName environment,
    if valid then PluginEvent.environmentValidated serviceName
    else PluginEvent.environmentValidationFailed serviceName])

/-- A detected serverless service record (the fields the orchestration reads). -/
structure ServerlessService where
  name : String
  path : String := ""
  configFile : String := ""
  dependencies : List String

/-- Deployment options of one request. -/
structure ServerlessDeploymentOptions where
  stage : String := ""
  region : Option String := none
  environment : Option String := none
  dryRun : Bool := false

/-- Oracles of one remote deployment request: the inspection result per
dependency stack (the plugin's inspectStack delegate; remote deployment
implies the inspector was constructed), the initial process environment and
the outcome of the delegated local deployment. -/
structure RemoteEnv where
  inspect : String → StackInspectionResult
  procEnv : String → Option String
  localDeploy : Except String Unit

/-- Join strings with a separator (Array.join). -/
def joinSep (sep : String) : List String → String
  | [] => ""
  | [x] => x
  | x :: y :: t => x ++ sep ++ joinSep sep (y :: t)

/-- The diagnostic message thrown on failed validation: the missing names, the
variable names available from the stack, and one recommendation line per
missing name with the stack-derived candidate or a placeholder. -/
def missingVarsMessage (missing : List String) (envVars : List (String × String)) : String :=
  "Missing required environment variables: " ++ joinSep (", ") missing ++
  "\nAvailable from stack: " ++ joinSep (", ") (envVars.map Prod.fst) ++
  "\nRecommendations:\n" ++ joinSep ("\n") (missing.map (fun v =>
    "  - Set " ++ v ++ "=" ++ jsOr (lookupRec v envVars) ("<value>")))

/-- The dependency loop of deployServiceRemote: for each declared dependency in
order, inspect, gate on readiness, validate the environment and inject the
resolved variables into the process environment; stop at the first failure
with the thrown message.  Returns the final environment, the emitted
validation notifications and the failure message, if any. -/
def processDependencies (env : RemoteEnv) (serviceName : String) (environment : Option String) :
    (String → Option String) → List String →
    (String → Option String) × List PluginEvent × Option String
  | pe, [] => (pe, [], none)
  | pe, d :: rest =>
    let r := env.inspect d
    if !r.success then
      (pe, [], some ("Stack inspection failed for " ++ d ++ ": " ++ r.error.getD ("undefined")))
    else
      match r.requirements with
      | none =>
        (pe, [], some ("Stack " ++ d ++ " is not ready for deployment. Status: undefined"))
      | some reqs =>
        if !reqs.readyForDeployment then
          (pe, [], some ("Stack " ++ d ++ " is not ready for deployment. Status: " ++
            reqs.status.getD ("undefined")))
        else
          let ve := validateEnvironmentVariables pe serviceName (jsOr environment ("default"))
            (reqs.environmentVariables.map (fun p => (p.1, some p.2)))
          if !ve.1.valid then
            (pe, ve.2, some (missingVarsMessage ve.1.missing reqs.environmentVariables))
          else
            let pe' := ve.1.resolved.foldl
              (fun f p => fun n => if n = p.1 then some p.2 else f n) pe
            match processDependencies env serviceName environment pe' rest with
            | (peF, evs, err) => (peF, ve.2 ++ evs, err)

/-- Outcome of one remote deployment request: the returned-or-thrown result,
the plugin notifications in emission order, whether the local-deploy
delegate was invoked, and the final process environment. -/
structure RemoteDeployOutcome where
  result : Except String Unit
  events : List PluginEvent
  localInvoked : Bool
  finalEnv : String → Option String

/-- ServerlessPlugin.deployServiceRemote: emit the start notification, run the
dependency loop, then delegate the local deployment; emit exactly one
completion notification carrying the success flag, and re-raise the
originating error after it on the failure path. -/
def deployServiceRemote (env : RemoteEnv) (service : ServerlessService)
    (options : ServerlessDeploymentOptions) : RemoteDeployOutcome :=
  let started := PluginEvent.remoteDeployStarted service.name
  match processDependencies env service.name options.environment env.procEnv
      service.dependencies with
  | (peF, evs, some err) =>
    { result := Except.error err
      events := started :: evs ++ [PluginEvent.remoteDeployCompleted service.name false]
      localInvoked := false
      finalEnv := peF }
  | (peF, evs, none) =>
    match env.localDeploy with
    | Except.ok _ =>
      { result := Except.ok ()
        events := started :: evs ++ [PluginEvent.remoteDeployCompleted service.name true]
        localInvoked := true
        finalEnv := peF }
    | Except.error e =>
      { result := Except.error e
        events := started :: evs ++ [PluginEvent.remoteDeployCompleted service.name false]
        localInvoked := true
        finalEnv := peF }

/-! ## Spec-side definitions

These definitions follow the specification's wording, for comparison with the
source-derived definitions above. -/

/-- Spec wording: a resolved path is a descendant of a base directory when it
equals the base or extends it below a path separator. -/
def specIsDescendant (base p : String) : Bool :=
  p = base || (base ++ "/").toList.isPrefixOf p.toList

/-- Spec wording for output keys: insert a separator between every
lowercase-then-uppercase transition (each boundary considered
independently), then upper-case the whole string. -/
def specCamel : List Char → List Char
  | [] => []
  | [a] => [a]
  | a :: b :: t =>
    if a.isLower && b.isUpper then a :: '_' :: specCamel (b :: t)
    else a :: specCamel (b :: t)

/-- Spec wording: the upper-snake-case variable name of an output key. -/
def specOutKeyName (k : String) : String :=
  String.mk ((specCamel k.toList).map Char.toUpper)

/-- Spec wording for configuration-store keys: replace every maximal run of
non-alphanumeric characters with a single separator.  Fuel-driven like the
source-derived collapse. -/
def specSquashFuel : Nat → List Char → List Char
  | 0, s => s
  | _ + 1, [] => []
  | f + 1, x :: t =>
    if isAlnum x then x :: specSquashFuel f t
    else '_' :: specSquashFuel f (t.dropWhile (fun c => !isAlnum c))

/-- Spec wording: replace non-alphanumeric runs with single separators. -/
def specSquash (s : List Char) : List Char :=
  specSquashFuel s.length s

/-- Spec wording: the variable name of a configuration-store key — runs
replaced, boundary separators trimmed, upper-cased. -/
def specSsmKeyName (k : String) : String :=
  String.mk ((trimOneU (specSquash k.toList)).map Char.toUpper)

/-! ## Claims -/

/-- Supporting lemma: reading the status option under the empty-string default
used by the readiness check. -/
theorem isStackReady_status (stack : Stack) :
    isStackReady stack = true ↔
      stack.StackStatus = some ("CREATE_COMPLETE") ∨
      stack.StackStatus = some ("UPDATE_COMPLETE") := by
  unfold isStackReady
  cases h : stack.StackStatus with
  | none => simp
  | some s =>
    by_cases hc : s = "CREATE_COMPLETE"
    · subst hc; decide
    · by_cases hu : s = "UPDATE_COMPLETE"
      · subst hu; decide
      · have h1 : (s == "CREATE_COMPLETE") = false := beq_eq_false_iff_ne.mpr hc
        have h2 : (s == "UPDATE_COMPLETE") = false := beq_eq_false_iff_ne.mpr hu
        simp [List.contains, List.elem, h1, h2, hc, hu]

/-- C1: readiness is true exactly for the two complete statuses, and the
derived requirements carry precisely the readiness of the inspected
descriptor, for every caller-supplied profile configuration and
configuration-store snapshot. -/
theorem claim1_readiness_solely_from_status
    (env : InspectEnv) (stack : Stack) (cfg : AWSProfileConfig) :
    (extractRequirements env stack cfg).readyForDeployment = isStackReady stack
    ∧ (isStackReady stack = true ↔
        stack.StackStatus = some ("CREATE_COMPLETE") ∨
        stack.StackStatus = some ("UPDATE_COMPLETE")) :=
  ⟨rfl, isStackReady_status stack⟩

/-- Supporting lemma: every failure of the path check, the size probe, the size
ceiling, the read or the parse collapses the scan into the empty set. -/
theorem scan_failure_nil
    (env : ScanEnv) (configPath : String) (projectRoot : Option String)
    (h : isPathSafe env configPath projectRoot = false
      ∨ (∃ e, env.statSize configPath = Except.error e)
      ∨ (∃ n, env.statSize configPath = Except.ok n ∧ n > maxFileSize)
      ∨ (∃ e, env.readFile configPath = Except.error e)
      ∨ (∃ raw e, env.readFile configPath = Except.ok raw
          ∧ env.yamlLoad raw = Except.error e)) :
    scanDependencies env configPath projectRoot = [] := by
  unfold scanDependencies scanDependenciesE loadConfigE
  rcases h with h | ⟨e, h⟩ | ⟨n, h1, h2⟩ | ⟨e, h⟩ | ⟨raw, e, h1, h2⟩
  · simp [h]
  all_goals cases hs : isPathSafe env configPath projectRoot
  · simp
  · simp [h]
  · simp
  · simp [h1, h2]
  · simp
  · cases hz : env.statSize configPath with
    | error e' => simp
    | ok n => by_cases hn : n > maxFileSize <;> simp [hn, h]
  · simp
  · cases hz : env.statSize configPath with
    | error e' => simp
    | ok n => by_cases hn : n > maxFileSize <;> simp [hn, h1, h2]

/-- C3: the scanner body is total, and every failure of the path check, the
size probe, the size ceiling, the read or the parse yields the empty
dependency set (the source catches every thrown error and returns an empty
array). -/
theorem claim3_scanner_never_raises
    (env : ScanEnv) (configPath : String) (projectRoot : Option String)
    (h : isPathSafe env configPath projectRoot = false
      ∨ (∃ e, env.statSize configPath = Except.error e)
      ∨ (∃ n, env.statSize configPath = Except.ok n ∧ n > maxFileSize)
      ∨ (∃ e, env.readFile configPath = Except.error e)
      ∨ (∃ raw e, env.readFile configPath = Except.ok raw
          ∧ env.yamlLoad raw = Except.error e)) :
    scanDependencies env configPath projectRoot = [] :=
  scan_failure_nil env configPath projectRoot h

/-- The scan environment of the C3 witness: the read fails. -/
def scanIOFailEnv : ScanEnv :=
  { resolve := fun s => s, cwd := "/proj",
    statSize := fun _ => Except.ok 100,
    readFile := fun _ => Except.error ("io failure"),
    yamlLoad := fun s => Except.ok s }

/-- Witness for C3 at a concrete failing read. -/
theorem claim3_scanner_never_raises_witness :
    (∃ e, scanIOFailEnv.readFile ("/proj/serverless.yml") = Except.error e)
    ∧ scanDependencies scanIOFailEnv ("/proj/serverless.yml") none = [] :=
  ⟨⟨"io failure", rfl⟩,
    claim3_scanner_never_raises scanIOFailEnv ("/proj/serverless.yml") none
      (Or.inr (Or.inr (Or.inr (Or.inl ⟨"io failure", rfl⟩))))⟩

/-- The document of the C6 counterexample: one parameter-path reference to the
vpc stack. -/
def c6Doc : String := "custom:\n  vpcId: $\x7bssm:/vpc-stack/vpc-id\x7d\n"

/-- The scan environment of the C6 counterexample: resolution is the identity,
the file is small and parses to the document above. -/
def c6Env : ScanEnv :=
  { resolve := fun s => s, cwd := "/proj",
    statSize := fun _ => Except.ok 100,
    readFile := fun _ => Except.ok c6Doc,
    yamlLoad := fun s => Except.ok s }

/-- C6 counterexample: a resolved path that is not a descendant of the project
root but shares it as a string prefix passes the containment check, and the
scan proceeds to parsing and returns a non-empty dependency set. -/
theorem claim6_counterexample :
    specIsDescendant ("/proj") ("/proj-evil/serverless.yml") = false
    ∧ scanDependencies c6Env ("/proj-evil/serverless.yml") (some ("/proj")) = ["vpc-stack"]
    ∧ ["vpc-stack"] ≠ ([] : List String) := by
  refine ⟨by decide, by decide, by decide⟩

/-- C6 amended: rejection is keyed to the string-prefix check of isPathSafe —
a resolved path that does not start with the resolved base is rejected
before any read, and an oversized file is rejected before parsing; both
yield the empty set. -/
theorem claim6_amended_prefix_and_size
    (env : ScanEnv) (configPath : String) (projectRoot : Option String) :
    (isPathSafe env configPath projectRoot = false →
      scanDependencies env configPath projectRoot = [])
    ∧ (∀ n, env.statSize configPath = Except.ok n → n > maxFileSize →
        scanDependencies env configPath projectRoot = []) :=
  ⟨fun h => scan_failure_nil env configPath projectRoot (Or.inl h),
   fun n h1 h2 =>
     scan_failure_nil env configPath projectRoot (Or.inr (Or.inr (Or.inl ⟨n, h1, h2⟩)))⟩

/-- The scan environment of the C6 witness for the size ceiling. -/
def c6BigEnv : ScanEnv :=
  { resolve := fun s => s, cwd := "/proj",
    statSize := fun _ => Except.ok (11 * 1024 * 1024),
    readFile := fun _ => Except.ok c6Doc,
    yamlLoad := fun s => Except.ok s }

/-- Witness for the amended C6 at a concrete non-matching path and a concrete
oversized file. -/
theorem claim6_amended_witness :
    (isPathSafe c6Env ("/outside/x.yml") (some ("/proj")) = false
      ∧ scanDependencies c6Env ("/outside/x.yml") (some ("/proj")) = [])
    ∧ (c6BigEnv.statSize ("/proj/big.yml") = Except.ok (11 * 1024 * 1024)
      ∧ 11 * 1024 * 1024 > maxFileSize
      ∧ scanDependencies c6BigEnv ("/proj/big.yml") (some ("/proj")) = []) :=
  ⟨⟨by decide,
    (claim6_amended_prefix_and_size c6Env ("/outside/x.yml") (some ("/proj"))).1 (by decide)⟩,
   ⟨rfl, by decide,
    (claim6_amended_prefix_and_size c6BigEnv ("/proj/big.yml") (some ("/proj"))).2
      (11 * 1024 * 1024) rfl (by decide)⟩⟩

/-- Recognises the before-inspection notification. -/
def isBeforeEvent : InspectorEvent → Bool
  | InspectorEvent.beforeStackInspection _ => true
  | _ => false

/-- Recognises an outcome notification: after-inspection or inspection-failed. -/
def isOutcomeEvent : InspectorEvent → Bool
  | InspectorEvent.afterStackInspection _ => true
  | InspectorEvent.stackInspectionFailed _ _ => true
  | _ => false

/-- The inspection environment of the C4 counterexample: the stack is missing. -/
def c4Env : InspectEnv := { fetch := FetchOutcome.notFound }

/-- C4 counterexample: on the stack-not-found outcome the call returns the
typed failure result but emits no outcome notification at all, refuting
that exactly one after-inspection or inspection-failed notification is
emitted on every outcome. -/
theorem claim4_counterexample :
    (inspectStack c4Env ("orders-stack") {}).1.success = false
    ∧ ((inspectStack c4Env ("orders-stack") {}).2.countP (fun e => isOutcomeEvent e) = 0
    ∧ (inspectStack c4Env ("orders-stack") {}).2.countP (fun e => isBeforeEvent e) = 1) := by
  refine ⟨rfl, by decide, by decide⟩

/-- C4 amended: every call emits exactly one before-inspection notification
first; a found descriptor emits exactly one after-inspection notification
and an exception exactly one inspection-failed notification, but the
stack-not-found outcome emits no outcome notification — it returns the
typed result with success false, an error message and the fixed guidance
list, without throwing. -/
theorem claim4_amended_events
    (env : InspectEnv) (stackName : String) (cfg : AWSProfileConfig) :
    (inspectStack env stackName cfg).2.head? =
      some (InspectorEvent.beforeStackInspection stackName)
    ∧ (inspectStack env stackName cfg).2.countP (fun e => isBeforeEvent e) = 1
    ∧ (inspectStack env stackName cfg).2.countP (fun e => isOutcomeEvent e) =
        (match env.fetch with
         | FetchOutcome.notFound => 0
         | _ => 1)
    ∧ (match env.fetch with
       | FetchOutcome.notFound =>
         (inspectStack env stackName cfg).1.success = false
         ∧ (inspectStack env stackName cfg).1.error ≠ none
         ∧ (inspectStack env stackName cfg).1.recommendations = some notFoundRecommendations
       | FetchOutcome.found _ => (inspectStack env stackName cfg).1.success = true
       | FetchOutcome.errored _ => (inspectStack env stackName cfg).1.success = false) := by
  cases h : env.fetch <;>
    simp [inspectStack, h, List.countP_cons, List.countP_nil, isBeforeEvent, isOutcomeEvent]

/-! ## Association-list lemmas for the resolution and derivation records -/

/-- Overwriting every entry of one key leaves lookups of that key at the new
value, provided the key occurs. -/
theorem lookupRec_map_overwrite (k v : String) (r : List (String × String))
    (hmem : r.any (fun p => p.1 = k) = true) :
    lookupRec k (r.map (fun p => if p.1 = k then (k, v) else p)) = some v := by
  induction r with
  | nil => simp at hmem
  | cons a t ih =>
    obtain ⟨a1, a2⟩ := a
    rw [List.map_cons]
    by_cases ha : a1 = k
    · rw [if_pos ha]
      simp [lookupRec]
    · rw [if_neg ha]
      have ht : (t.any fun p => decide (p.1 = k)) = true := by
        simpa [List.any_cons, ha] using hmem
      rw [lookupRec, if_neg ha]
      exact ih ht

/-- Overwriting entries of a different key leaves a lookup unchanged. -/
theorem lookupRec_map_ne (k m v : String) (r : List (String × String)) (hne : m ≠ k) :
    lookupRec k (r.map (fun p => if p.1 = m then (m, v) else p)) = lookupRec k r := by
  induction r with
  | nil => rfl
  | cons a t ih =>
    obtain ⟨a1, a2⟩ := a
    rw [List.map_cons]
    by_cases ha : a1 = m
    · have hak : a1 ≠ k := by rw [ha]; exact hne
      rw [if_pos ha, lookupRec, if_neg hne, lookupRec, if_neg hak]
      exact ih
    · rw [if_neg ha, lookupRec, lookupRec]
      by_cases hk : a1 = k
      · rw [if_pos hk, if_pos hk]
      · rw [if_neg hk, if_neg hk]
        exact ih

/-- Lookup distributes over append, preferring the left record. -/
theorem lookupRec_append (k : String) (r l2 : List (String × String)) :
    lookupRec k (r ++ l2) =
      (match lookupRec k r with
       | some v => some v
       | none => lookupRec k l2) := by
  induction r with
  | nil => simp [lookupRec]
  | cons a t ih =>
    obtain ⟨a1, a2⟩ := a
    rw [List.cons_append, lookupRec, lookupRec]
    by_cases hk : a1 = k
    · rw [if_pos hk, if_pos hk]
    · rw [if_neg hk, if_neg hk]
      exact ih

/-- Assignment of a key makes its lookup return the assigned value. -/
theorem lookupRec_recInsert_self (k v : String) (r : List (String × String)) :
    lookupRec k (recInsert k v r) = some v := by
  unfold recInsert
  split
  · exact lookupRec_map_overwrite k v r (by assumption)
  · rw [lookupRec_append]
    have hnone : lookupRec k r = none := by
      rename_i hany
      rw [Bool.not_eq_true] at hany
      induction r with
      | nil => rfl
      | cons a t ih =>
        obtain ⟨a1, a2⟩ := a
        simp [List.any_cons] at hany
        rw [lookupRec, if_neg hany.1]
        exact ih (by simpa using hany.2)
    simp [hnone, lookupRec]

/-- Assignment of a different key leaves a lookup unchanged. -/
theorem lookupRec_recInsert_ne (k m v : String) (r : List (String × String)) (hne : m ≠ k) :
    lookupRec k (recInsert m v r) = lookupRec k r := by
  unfold recInsert
  split
  · exact lookupRec_map_ne k m v r hne
  · rw [lookupRec_append]
    cases h : lookupRec k r <;> simp [lookupRec, hne, h]

/-- An absent key looks up to nothing. -/
theorem lookupRec_eq_none_of_not_mem (k : String) (r : List (String × String))
    (h : k ∉ r.map Prod.fst) : lookupRec k r = none := by
  induction r with
  | nil => rfl
  | cons a t ih =>
    obtain ⟨a1, a2⟩ := a
    simp only [List.map_cons, List.mem_cons, not_or] at h
    rw [lookupRec, if_neg (fun hc => h.1 hc.symm)]
    exact ih h.2

/-! ## Environment resolution: supporting lemmas -/

/-- The source chain is the spec's nested precedence: ambient bare name, then
scoped override, then stack value. -/
theorem sourcesFind_eq (procEnv : String → Option String) (label n : String)
    (sv : Option String) :
    sourcesFind procEnv label n sv =
      (match procEnv n with
       | some v => some v
       | none =>
         match procEnv (label.toUpper ++ "_" ++ n) with
         | some v => some v
         | none => sv) := by
  unfold sourcesFind
  cases procEnv n <;> cases procEnv (label.toUpper ++ "_" ++ n) <;> cases sv <;>
    simp [List.findSome?]

/-- Variables not named in the remaining declarations are untouched by the
resolution loop. -/
theorem resolveLoop_skip (procEnv : String → Option String) (label : String) :
    ∀ (vars : List (String × Option String)) (acc : List (String × String) × List String)
      (n : String), n ∉ vars.map Prod.fst →
    lookupRec n (resolveLoop procEnv label acc vars).1 = lookupRec n acc.1
    ∧ (n ∈ (resolveLoop procEnv label acc vars).2 ↔ n ∈ acc.2) := by
  intro vars
  induction vars with
  | nil => intro acc n _; exact ⟨rfl, Iff.rfl⟩
  | cons p rest ih =>
    intro acc n hn
    obtain ⟨m, mv⟩ := p
    simp only [List.map_cons, List.mem_cons, not_or] at hn
    have hmn : m ≠ n := fun hc => hn.1 hc.symm
    have hrest : n ∉ rest.map Prod.fst := hn.2
    unfold resolveLoop
    cases hsf : sourcesFind procEnv label m mv with
    | some v =>
      have := ih (recInsert m v acc.1, acc.2) n hrest
      exact ⟨by rw [this.1, lookupRec_recInsert_ne n m v acc.1 hmn], this.2⟩
    | none =>
      have := ih (acc.1, acc.2 ++ [m]) n hrest
      refine ⟨this.1, this.2.trans ?_⟩
      simp [hmn.symm]

/-- The resolution loop resolves each declared variable from its source chain
and reports it missing exactly when the chain is empty, assuming distinct
declared names and an accumulator not yet mentioning the variable. -/
theorem resolveLoop_found (procEnv : String → Option String) (label : String) :
    ∀ (vars : List (String × Option String)) (acc : List (String × String) × List String)
      (n : String) (sv : Option String),
    (n, sv) ∈ vars → (vars.map Prod.fst).Nodup →
    lookupRec n acc.1 = none → n ∉ acc.2 →
    lookupRec n (resolveLoop procEnv label acc vars).1 = sourcesFind procEnv label n sv
    ∧ (n ∈ (resolveLoop procEnv label acc vars).2 ↔ sourcesFind procEnv label n sv = none) := by
  intro vars
  induction vars with
  | nil => intro acc n sv hmem; exact absurd hmem (List.not_mem_nil _)
  | cons p rest ih =>
    intro acc n sv hmem hnd hacc1 hacc2
    obtain ⟨m, mv⟩ := p
    simp only [List.map_cons, List.nodup_cons] at hnd
    rcases List.mem_cons.mp hmem with heq | hmemrest
    · have h1 : n = m := congrArg Prod.fst heq
      have h2 : sv = mv := congrArg Prod.snd heq
      subst h1; subst h2
      have hnotin : n ∉ rest.map Prod.fst := hnd.1
      cases hsf : sourcesFind procEnv label n sv with
      | some v =>
        have hs := resolveLoop_skip procEnv label rest (recInsert n v acc.1, acc.2) n hnotin
        simp only [resolveLoop, hsf]
        refine ⟨?_, ?_⟩
        · rw [hs.1, lookupRec_recInsert_self]
        · rw [hs.2]; simp [hacc2]
      | none =>
        have hs := resolveLoop_skip procEnv label rest (acc.1, acc.2 ++ [n]) n hnotin
        simp only [resolveLoop, hsf]
        refine ⟨?_, ?_⟩
        · rw [hs.1]; exact hacc1
        · rw [hs.2]; simp
    · have hmn : m ≠ n := by
        intro hc
        subst hc
        exact hnd.1 (List.mem_map_of_mem Prod.fst hmemrest)
      cases hsf : sourcesFind procEnv label m mv with
      | some v =>
        simp only [resolveLoop, hsf]
        exact ih (recInsert m v acc.1, acc.2) n sv hmemrest hnd.2
          (by rw [lookupRec_recInsert_ne n m v acc.1 hmn]; exact hacc1) hacc2
      | none =>
        simp only [resolveLoop, hsf]
        refine ih (acc.1, acc.2 ++ [m]) n sv hmemrest hnd.2 hacc1 ?_
        intro hc
        rcases List.mem_append.mp hc with h | h
        · exact hacc2 h
        · exact hmn (List.mem_singleton.mp h).symm

/-- C2: for distinct declared names, every declared variable resolves to the
first defined source in the fixed order — ambient bare name, upper-cased
environment-scoped override, stack value — is missing exactly when all
three are undefined, and the result is valid exactly when the missing list
is empty. -/
theorem claim2_environment_resolution
    (procEnv : String → Option String) (serviceName environment : String)
    (vars : List (String × Option String)) (hnd : (vars.map Prod.fst).Nodup) :
    ((validateEnvironmentVariables procEnv serviceName environment vars).1.valid = true ↔
      (validateEnvironmentVariables procEnv serviceName environment vars).1.missing = [])
    ∧ (∀ n sv, (n, sv) ∈ vars →
        lookupRec n
            (validateEnvironmentVariables procEnv serviceName environment vars).1.resolved =
          (match procEnv n with
           | some v => some v
           | none =>
             match procEnv (environment.toUpper ++ "_" ++ n) with
             | some v => some v
             | none => sv)
        ∧ ((n ∈ (validateEnvironmentVariables procEnv serviceName environment vars).1.missing) ↔
            (match procEnv n with
             | some v => some v
             | none =>
               match procEnv (environment.toUpper ++ "_" ++ n) with
               | some v => some v
               | none => sv) = none)) := by
  constructor
  · simp [validateEnvironmentVariables, List.isEmpty_iff]
  · intro n sv hmem
    have h := resolveLoop_found procEnv environment vars ([], []) n sv hmem hnd rfl
      (List.not_mem_nil n)
    rw [← sourcesFind_eq]
    exact ⟨by simpa [validateEnvironmentVariables] using h.1,
      by simpa [validateEnvironmentVariables] using h.2⟩

/-- Declared variables of the C2 witness. -/
def c2Vars : List (String × Option String) :=
  [("DB_HOST", some ("db.example")), ("API_KEY", none)]

/-- Ambient environment of the C2 witness: only the scoped override of the
second variable is defined. -/
def c2ProcEnv : String → Option String :=
  fun n => if n = "PROD_API_KEY" then some ("ov") else none

/-- Witness for C2 at a concrete declaration list. -/
theorem claim2_environment_resolution_witness :
    (c2Vars.map Prod.fst).Nodup
    ∧ (((validateEnvironmentVariables c2ProcEnv ("svc") ("prod") c2Vars).1.valid = true ↔
        (validateEnvironmentVariables c2ProcEnv ("svc") ("prod") c2Vars).1.missing = [])
      ∧ (∀ n sv, (n, sv) ∈ c2Vars →
          lookupRec n
              (validateEnvironmentVariables c2ProcEnv ("svc") ("prod") c2Vars).1.resolved =
            (match c2ProcEnv n with
             | some v => some v
             | none =>
               match c2ProcEnv (("prod" : String).toUpper ++ "_" ++ n) with
               | some v => some v
               | none => sv)
          ∧ ((n ∈ (validateEnvironmentVariables c2ProcEnv ("svc") ("prod") c2Vars).1.missing) ↔
              (match c2ProcEnv n with
               | some v => some v
               | none =>
                 match c2ProcEnv (("prod" : String).toUpper ++ "_" ++ n) with
                 | some v => some v
                 | none => sv) = none))) :=
  ⟨by decide, claim2_environment_resolution c2ProcEnv ("svc") ("prod") c2Vars (by decide)⟩

/-- C10: a defined-but-empty ambient value wins — the source test is
definedness, not non-emptiness — so the variable resolves to the empty
string and is not reported missing. -/
theorem claim10_empty_ambient_wins
    (procEnv : String → Option String) (serviceName environment : String)
    (vars : List (String × Option String)) (n : String) (sv : Option String)
    (hnd : (vars.map Prod.fst).Nodup) (hmem : (n, sv) ∈ vars)
    (hempty : procEnv n = some ("")) :
    lookupRec n (validateEnvironmentVariables procEnv serviceName environment vars).1.resolved
      = some ("")
    ∧ n ∉ (validateEnvironmentVariables procEnv serviceName environment vars).1.missing := by
  have h := resolveLoop_found procEnv environment vars ([], []) n sv hmem hnd rfl
    (List.not_mem_nil n)
  have hsf : sourcesFind procEnv environment n sv = some ("") := by
    rw [sourcesFind_eq, hempty]
  constructor
  · have h1 := h.1
    rw [hsf] at h1
    simpa [validateEnvironmentVariables] using h1
  · intro hc
    have h2 := (h.2).mp (by simpa [validateEnvironmentVariables] using hc)
    rw [hsf] at h2
    exact Option.noConfusion h2

/-- Ambient environment of the C10 witness: the variable is set to the empty
string ambiently while both the override and the stack value are defined
and nonempty. -/
def c10ProcEnv : String → Option String :=
  fun n =>
    if n = "X" then some ("")
    else if n = "PROD_X" then some ("override") else none

/-- Witness for C10: the empty ambient value beats the override and the stack
value. -/
theorem claim10_empty_ambient_wins_witness :
    ((([("X", some ("stackv"))] : List (String × Option String)).map Prod.fst).Nodup
      ∧ ("X", some ("stackv")) ∈ ([("X", some ("stackv"))] : List (String × Option String))
      ∧ c10ProcEnv ("X") = some (""))
    ∧ lookupRec ("X")
        (validateEnvironmentVariables c10ProcEnv ("svc") ("prod")
          [("X", some ("stackv"))]).1.resolved = some ("")
    ∧ ("X") ∉ (validateEnvironmentVariables c10ProcEnv ("svc") ("prod")
        [("X", some ("stackv"))]).1.missing := by
  refine ⟨⟨by decide, by decide, by decide⟩, ?_⟩
  exact claim10_empty_ambient_wins c10ProcEnv ("svc") ("prod") [("X", some ("stackv"))]
    ("X") (some ("stackv")) (by decide) (by decide) (by decide)

/-! ## Remote deployment orchestration -/

/-- The notifications of one validation call are the before-validation
notification and one outcome notification chosen by validity. -/
theorem validate_events_shape (procEnv : String → Option String)
    (serviceName environment : String) (vars : List (String × Option String)) :
    (validateEnvironmentVariables procEnv serviceName environment vars).2 =
      [PluginEvent.beforeEnvironmentValidation serviceName environment,
       if (validateEnvironmentVariables procEnv serviceName environment vars).1.valid then
         PluginEvent.environmentValidated serviceName
       else PluginEvent.environmentValidationFailed serviceName] := rfl

/-- Recognises the start notification. -/
def isStartedEvent : PluginEvent → Bool
  | PluginEvent.remoteDeployStarted _ => true
  | _ => false

/-- Recognises a completion notification, successful or not. -/
def isCompletedEvent : PluginEvent → Bool
  | PluginEvent.remoteDeployCompleted _ _ => true
  | _ => false

/-- C5: with two declared dependencies, the first inspecting as ready and fully
resolvable and the second inspecting as failed (the not-found result), the
request fails with the second stack's inspection error, the local-deploy
delegate is never invoked, exactly one start and one completion
notification are emitted, the completion carries success false and is the
last notification before the error is re-raised. -/
theorem claim5_second_dependency_not_found
    (env : RemoteEnv) (service : ServerlessService) (options : ServerlessDeploymentOptions)
    (s1 s2 : String) (reqs : StackRequirements)
    (hdeps : service.dependencies = [s1, s2])
    (h1 : env.inspect s1 = { success := true, requirements := some reqs })
    (hready : reqs.readyForDeployment = true)
    (hvalid : (validateEnvironmentVariables env.procEnv service.name
        (jsOr options.environment ("default"))
        (reqs.environmentVariables.map (fun p => (p.1, some p.2)))).1.valid = true)
    (h2 : (env.inspect s2).success = false) :
    (deployServiceRemote env service options).localInvoked = false
    ∧ (deployServiceRemote env service options).result =
        Except.error ("Stack inspection failed for " ++ s2 ++ ": "
          ++ (env.inspect s2).error.getD ("undefined"))
    ∧ (deployServiceRemote env service options).events.countP
        (fun e => isStartedEvent e) = 1
    ∧ (deployServiceRemote env service options).events.countP
        (fun e => isCompletedEvent e) = 1
    ∧ (deployServiceRemote env service options).events.getLast? =
        some (PluginEvent.remoteDeployCompleted service.name false) := by
  have hve : (validateEnvironmentVariables env.procEnv service.name
      (jsOr options.environment ("default"))
      (reqs.environmentVariables.map (fun p => (p.1, some p.2)))).2 =
      [PluginEvent.beforeEnvironmentValidation service.name
        (jsOr options.environment ("default")),
       PluginEvent.environmentValidated service.name] := by
    rw [validate_events_shape, hvalid]
    simp
  unfold deployServiceRemote
  rw [hdeps]
  simp only [processDependencies, h1, Bool.not_true, Bool.false_eq_true, if_false, hready,
    Bool.not_false, if_true, hve, h2]
  simp [hvalid, List.countP_cons, isStartedEvent, isCompletedEvent, List.getLast?]

/-- Ready requirements of the C5 witness. -/
def c5Reqs : StackRequirements :=
  { stackName := some ("net-stack"), region := "us-east-1", outputs := []
    parameters := [], environmentVariables := [("DB_HOST", "db.example")]
    dependencies := [], status := some ("UPDATE_COMPLETE")
    readyForDeployment := true, ssmParameters := [] }

/-- Request oracles of the C5 witness: the first stack inspects as ready, any
other as the typed not-found failure; no ambient variables; the delegate
would succeed if it were ever invoked. -/
def c5Env : RemoteEnv :=
  { inspect := fun n =>
      if n = "net-stack" then { success := true, requirements := some c5Reqs }
      else (inspectStack { fetch := FetchOutcome.notFound } n {}).1
    procEnv := fun _ => none
    localDeploy := Except.ok () }

/-- Service of the C5 witness: two declared dependencies. -/
def c5Svc : ServerlessService := { name := "api", dependencies := ["net-stack", "db-stack"] }

/-- Options of the C5 witness: a remote deployment request. -/
def c5Opts : ServerlessDeploymentOptions := { environment := some ("prod") }

/-- Witness for C5 at the concrete two-dependency request. -/
theorem claim5_second_dependency_not_found_witness :
    (c5Svc.dependencies = ["net-stack", "db-stack"]
      ∧ c5Env.inspect ("net-stack") = { success := true, requirements := some c5Reqs }
      ∧ c5Reqs.readyForDeployment = true
      ∧ (validateEnvironmentVariables c5Env.procEnv c5Svc.name
          (jsOr c5Opts.environment ("default"))
          (c5Reqs.environmentVariables.map (fun p => (p.1, some p.2)))).1.valid = true
      ∧ (c5Env.inspect ("db-stack")).success = false)
    ∧ ((deployServiceRemote c5Env c5Svc c5Opts).localInvoked = false
      ∧ (deployServiceRemote c5Env c5Svc c5Opts).result =
          Except.error ("Stack inspection failed for " ++ "db-stack" ++ ": "
            ++ (c5Env.inspect ("db-stack")).error.getD ("undefined"))
      ∧ (deployServiceRemote c5Env c5Svc c5Opts).events.countP
          (fun e => isStartedEvent e) = 1
      ∧ (deployServiceRemote c5Env c5Svc c5Opts).events.countP
          (fun e => isCompletedEvent e) = 1
      ∧ (deployServiceRemote c5Env c5Svc c5Opts).events.getLast? =
          some (PluginEvent.remoteDeployCompleted c5Svc.name false)) :=
  ⟨⟨rfl, by decide, rfl, by decide, by decide⟩,
   claim5_second_dependency_not_found c5Env c5Svc c5Opts ("net-stack") ("db-stack") c5Reqs
     rfl (by decide) rfl (by decide) (by decide)⟩

/-! ## Derived environment variables -/

/-- An uppercase ASCII letter is not lowercase. -/
theorem upper_not_lower (c : Char) (h : c.isUpper = true) : c.isLower = false := by
  simp only [Char.isUpper, Char.isLower, Bool.and_eq_true, decide_eq_true_eq] at h
  have hn : ¬ (97 : UInt32) ≤ c.val := by
    intro hc
    have h90 : c.val.toNat ≤ (90 : UInt32).toNat := h.2
    have h97 : (97 : UInt32).toNat ≤ c.val.toNat := hc
    have e1 : (97 : UInt32).toNat = 97 := by decide
    have e2 : (90 : UInt32).toNat = 90 := by decide
    omega
  simp only [Char.isLower, ge_iff_le]
  rw [decide_eq_false hn, Bool.false_and]

/-- The source transform passes an uppercase head unchanged. -/
theorem camelSep_upper_cons (b : Char) (hb : b.isUpper = true) (t : List Char) :
    camelSep (b :: t) = b :: camelSep t := by
  cases t with
  | nil => rfl
  | cons c t' => simp [camelSep, upper_not_lower b hb]

/-- The spec transform passes an uppercase head unchanged. -/
theorem specCamel_upper_cons (b : Char) (hb : b.isUpper = true) (t : List Char) :
    specCamel (b :: t) = b :: specCamel t := by
  cases t with
  | nil => rfl
  | cons c t' => simp [specCamel, upper_not_lower b hb]

/-- The consuming global replace of the source equals the per-boundary insert of
the spec: the pair the source skips after a match starts with an uppercase
letter and therefore starts no boundary of its own. -/
theorem camelSep_eq_specCamel (s : List Char) : camelSep s = specCamel s := by
  induction s using camelSep.induct with
  | case1 => rfl
  | case2 a => rfl
  | case3 a b t hab ih =>
    have hb : b.isUpper = true := (Bool.and_eq_true ..).mp hab |>.2
    simp only [camelSep, specCamel, hab, if_true]
    rw [specCamel_upper_cons b hb t, ih]
  | case4 a b t hab ih =>
    rw [Bool.not_eq_true] at hab
    simp only [camelSep, specCamel, hab, Bool.false_eq_true, if_false]
    rw [ih]

/-- C9 transform equality for output keys. -/
theorem outKeyName_eq_spec (k : String) : outKeyName k = specOutKeyName k := by
  unfold outKeyName specOutKeyName
  rw [camelSep_eq_specCamel]

/-- Mapping non-alphanumerics to separators commutes with dropping a
non-alphanumeric run. -/
theorem dropWhile_underscore_map (t : List Char) :
    (mapNonAlnum t).dropWhile (fun y => y = '_') =
      mapNonAlnum (t.dropWhile (fun c => !isAlnum c)) := by
  induction t with
  | nil => rfl
  | cons u t ih =>
    by_cases hu : isAlnum u = true
    · have hne : ¬ u = '_' := by
        intro hc; rw [hc] at hu; exact absurd hu (by decide)
      simp [mapNonAlnum, List.dropWhile_cons, hu, hne]
    · rw [Bool.not_eq_true] at hu
      simp [mapNonAlnum, List.dropWhile_cons, hu] at ih ⊢
      exact ih

/-- Dropping a prefix never lengthens a list. -/
theorem dropWhile_length_le (p : Char → Bool) (l : List Char) :
    (l.dropWhile p).length ≤ l.length := by
  induction l with
  | nil => simp [List.dropWhile]
  | cons x t ih =>
    rw [List.dropWhile_cons]
    by_cases hx : p x = true
    · simp only [hx, if_true]
      exact Nat.le_succ_of_le ih
    · simp [hx]

/-- With adequate fuel, collapsing separator runs after the per-character map
equals the spec's single-pass run replacement. -/
theorem collapse_map_eq_squash :
    ∀ (f : Nat) (s : List Char), s.length ≤ f →
      collapseRunsFuel '_' f (mapNonAlnum s) = specSquashFuel f s := by
  intro f
  induction f with
  | zero =>
    intro s hs
    have : s = [] := List.eq_nil_of_length_eq_zero (Nat.le_zero.mp hs)
    subst this
    rfl
  | succ f ih =>
    intro s hs
    cases s with
    | nil => rfl
    | cons u t =>
      by_cases hu : isAlnum u = true
      · have hne : ¬ u = '_' := by
          intro hc; rw [hc] at hu; exact absurd hu (by decide)
        simp only [mapNonAlnum, List.map_cons, hu, if_true, collapseRunsFuel, specSquashFuel,
          if_neg hne]
        have ht : t.length ≤ f := Nat.le_of_succ_le_succ (by simpa using hs)
        exact congrArg (u :: ·) (ih t ht)
      · rw [Bool.not_eq_true] at hu
        simp only [mapNonAlnum, List.map_cons, hu, Bool.false_eq_true, if_false,
          collapseRunsFuel, specSquashFuel, if_pos trivial, if_true]
        have hlen : (t.dropWhile (fun c => !isAlnum c)).length ≤ f := by
          have h1 := dropWhile_length_le (fun c => !isAlnum c) t
          have ht : t.length ≤ f := Nat.le_of_succ_le_succ (by simpa using hs)
          omega
        rw [show (List.map (fun c => if isAlnum c then c else '_') t) = mapNonAlnum t from rfl,
          dropWhile_underscore_map t]
        exact congrArg ('_' :: ·) (ih _ hlen)

/-- C9 transform equality for configuration-store keys. -/
theorem ssmKeyName_eq_spec (k : String) : ssmKeyName k = specSsmKeyName k := by
  unfold ssmKeyName specSsmKeyName collapseRuns specSquash
  rw [show (mapNonAlnum k.toList).length = k.toList.length from List.length_map ..]
  rw [collapse_map_eq_squash k.toList.length k.toList (le_refl _)]

/-- Assignment preserves distinctness of record keys. -/
theorem keysNodup_recInsert (k v : String) (r : List (String × String))
    (h : (r.map Prod.fst).Nodup) : ((recInsert k v r).map Prod.fst).Nodup := by
  unfold recInsert
  split
  · have hkeys : (r.map (fun p => if p.1 = k then (k, v) else p)).map Prod.fst =
        r.map Prod.fst := by
      rw [List.map_map]
      apply List.map_congr_left
      intro p _
      by_cases hp : p.1 = k
      · simp [hp]
      · simp [hp]
    rw [hkeys]
    exact h
  · rename_i hany
    rw [Bool.not_eq_true] at hany
    have hk : k ∉ r.map Prod.fst := by
      intro hc
      obtain ⟨p, hp, he⟩ := List.mem_map.mp hc
      have := List.any_eq_false.mp hany p hp
      simp [he] at this
    rw [List.map_append]
    rw [List.nodup_append]
    exact ⟨h, List.nodup_singleton k, by
      intro x hx hx2
      simp at hx2
      subst hx2
      exact hk hx⟩

/-- The store-derived record has distinct keys. -/
theorem generateEnvVarsFromSSM_keys_nodup (ssmParams : List (String × String)) :
    ((generateEnvVarsFromSSM ssmParams).map Prod.fst).Nodup := by
  unfold generateEnvVarsFromSSM
  suffices h : ∀ (l : List (String × String)) (acc : List (String × String)),
      (acc.map Prod.fst).Nodup →
      ((l.foldl (fun acc p =>
        let n := ssmKeyName p.1
        if n = "" then acc else recInsert n p.2 acc) acc).map Prod.fst).Nodup by
    exact h ssmParams [] List.nodup_nil
  intro l
  induction l with
  | nil => intro acc hacc; exact hacc
  | cons p t ih =>
    intro acc hacc
    rw [List.foldl_cons]
    by_cases hn : ssmKeyName p.1 = ""
    · simp only [hn, if_pos rfl]
      exact ih acc hacc
    · simp only [if_neg hn]
      exact ih _ (keysNodup_recInsert _ _ _ hacc)

/-- Lookup through the object spread: the second record wins on collisions,
provided its keys are distinct. -/
theorem lookupRec_mergeSpread (k : String) (a b : List (String × String))
    (hb : (b.map Prod.fst).Nodup) :
    lookupRec k (mergeSpread a b) =
      (match lookupRec k b with
       | some v => some v
       | none => lookupRec k a) := by
  unfold mergeSpread
  induction b generalizing a with
  | nil => simp [lookupRec]
  | cons p b' ih =>
    obtain ⟨m, v⟩ := p
    rw [List.foldl_cons]
    simp only [List.map_cons, List.nodup_cons] at hb
    rw [ih (recInsert m v a) hb.2]
    by_cases hk : k = m
    · subst hk
      rw [lookupRec_eq_none_of_not_mem k b' hb.1]
      rw [lookupRec, if_pos rfl, lookupRec_recInsert_self]
    · rw [lookupRec, if_neg (fun hc => hk hc.symm)]
      cases hcb : lookupRec k b' with
      | some w => rfl
      | none => rw [lookupRec_recInsert_ne k m v a (fun hc => hk hc.symm)]

/-- C9: the derived environment-variable record looks up store-derived values
first (the store wins on every name collision with output-derived values),
and the two key transforms are exactly the spec's case-boundary transform
and non-alphanumeric-run transform. -/
theorem claim9_derived_environment_variables
    (env : InspectEnv) (stack : Stack) (cfg : AWSProfileConfig) :
    (∀ name, lookupRec name (extractRequirements env stack cfg).environmentVariables =
      (match lookupRec name (generateEnvVarsFromSSM env.ssmParameters) with
       | some v => some v
       | none => lookupRec name (generateEnvVarsFromOutputs (extractOutputs stack))))
    ∧ (∀ k, outKeyName k = specOutKeyName k)
    ∧ (∀ k, ssmKeyName k = specSsmKeyName k) := by
  refine ⟨?_, outKeyName_eq_spec, ssmKeyName_eq_spec⟩
  intro name
  exact lookupRec_mergeSpread name (generateEnvVarsFromOutputs (extractOutputs stack))
    (generateEnvVarsFromSSM env.ssmParameters)
    (generateEnvVarsFromSSM_keys_nodup env.ssmParameters)

/-! ## The base-name reducer's null results -/

/-- C8 counterexample: a payload consisting of a single placeholder is
non-empty, yet the base-name reducer returns null on it. -/
theorem claim8_counterexample :
    extractBaseStackName ("$\x7ba\x7d") = none ∧ ("$\x7ba\x7d" : String) ≠ "" := by
  exact ⟨by decide, by decide⟩

/-- C8 amended: the reducer returns null exactly when none of the three
structural patterns matches and the placeholder-collapsed, trimmed,
run-collapsed fallback form is empty — which holds for the empty payload
but also for non-empty payloads made only of placeholders and separators. -/
theorem claim8_amended_null_characterisation (s : List Char) :
    extractBaseStackNameL s = none ↔
      (matchP1 s = none ∧ matchP2 s = none ∧ matchP3 s = none ∧ cleanNameOf s = []) := by
  unfold extractBaseStackNameL cleanNameOf
  cases h1 : matchP1 s with
  | some m => simp [h1]
  | none =>
  cases h2 : matchP2 s with
  | some m => simp [h2]
  | none =>
  cases h3 : matchP3 s with
  | some m => simp [h3]
  | none =>
    simp only [true_and]
    cases hsuf : isSuffixL stackLit (collapseRuns '-' (trimDashes (replacePH '-' s))) with
    | true =>
      simp only [hsuf, if_true]
      constructor
      · intro hc; exact Option.noConfusion hc
      · intro hcn
        rw [hcn] at hsuf
        exact absurd hsuf (by decide)
    | false =>
      simp only [hsuf, Bool.false_eq_true, if_false]
      cases hin : (if containsSeq stackWord (collapseRuns '-' (trimDashes (replacePH '-' s)))
          && !(isSuffixL stackWord (collapseRuns '-' (trimDashes (replacePH '-' s)))) then
            match (splitChar '-' (collapseRuns '-' (trimDashes (replacePH '-' s)))).findIdx?
                (fun p => p = stackWord) with
            | some i => some (joinDashes ((splitChar '-'
                (collapseRuns '-' (trimDashes (replacePH '-' s)))).take (i + 1)))
            | none => none
          else none) with
      | some r =>
        simp only [hin]
        constructor
        · intro hc; exact Option.noConfusion hc
        · intro hcn
          rw [hcn] at hin
          rw [if_neg (by decide)] at hin
          exact Option.noConfusion hin
      | none =>
        simp only [hin]
        by_cases hcn : collapseRuns '-' (trimDashes (replacePH '-' s)) = []
        · simp [hcn]
        · simp [hcn]

/-! ## Pinned extraction classes: supporting regex-matcher lemmas -/

/-- A placeholder match requires a dollar sign at the head. -/
theorem placeholderAt_head_ne (x : Char) (t : List Char) (hx : x ≠ '$') :
    placeholderAt (x :: t) = none := by
  rw [placeholderAt.eq_def]
  split
  · rename_i heq
    rw [List.cons.injEq] at heq
    exact absurd heq.1 hx
  · rfl

/-- Without a dollar sign no interpolated-stack head piece can match. -/
theorem matchA_of_no_dollar (s : List Char) (h : '$' ∉ s) : matchA s = none := by
  induction s with
  | nil => rfl
  | cons x t ih =>
    simp only [List.mem_cons, not_or] at h
    rw [matchA]
    by_cases hx : x = '/'
    · rw [if_pos hx]
    · rw [if_neg hx, ih h.2, placeholderAt_head_ne x t (fun hc => h.1 hc.symm)]

/-- Without a dollar sign the interpolated-stack pattern does not match. -/
theorem matchInterp_of_no_dollar (s : List Char) (h : '$' ∉ s) : matchInterp s = none := by
  induction s with
  | nil => rfl
  | cons x t ih =>
    simp only [List.mem_cons, not_or] at h
    rw [matchInterp]
    by_cases hx : x = '/'
    · rw [if_pos hx, matchA_of_no_dollar t h.2]
      exact ih h.2
    · rw [if_neg hx]
      exact ih h.2

/-- Placeholder replacement is the identity on dollar-free inputs, at any fuel. -/
theorem replacePHFuel_of_no_dollar (c : Char) (f : Nat) (s : List Char) (h : '$' ∉ s) :
    replacePHFuel c f s = s := by
  induction f generalizing s with
  | zero => rfl
  | succ f ih =>
    cases s with
    | nil => rfl
    | cons x t =>
      simp only [List.mem_cons, not_or] at h
      rw [replacePHFuel, placeholderAt_head_ne x t (fun hc => h.1 hc.symm)]
      rw [ih t h.2]

/-- The greedy scan to the first closing brace splits a brace-free block
exactly at the appended closing brace. -/
theorem findClose_append (a r : List Char) (h : '}' ∉ a) :
    findClose (a ++ '}' :: r) = some (a, r) := by
  induction a with
  | nil => simp [findClose]
  | cons x t ih =>
    simp only [List.mem_cons, not_or] at h
    rw [List.cons_append, findClose, if_neg (fun hc => h.1 hc.symm), ih h.2]

/-- A syntactically well-formed placeholder matches exactly its inside. -/
theorem placeholderAt_exact (ins r : List Char) (h1 : '}' ∉ ins) (h2 : ins ≠ []) :
    placeholderAt ('$' :: '{' :: (ins ++ '}' :: r)) = some (ins, r) := by
  rw [placeholderAt, findClose_append ins r h1]
  simp [h2]

/-- The head piece cannot match when the stretch before the next slash is
dollar-free: the placeholder the pattern requires cannot start there. -/
theorem matchA_append_slash (u v : List Char) (hd : '$' ∉ u) (hs : '/' ∉ u) :
    matchA (u ++ '/' :: v) = none := by
  induction u with
  | nil => rw [List.nil_append, matchA, if_pos rfl]
  | cons x t ih =>
    simp only [List.mem_cons, not_or] at hd hs
    rw [List.cons_append, matchA, if_neg (fun hc => hs.1 hc.symm), ih hd.2 hs.2,
      placeholderAt_head_ne x (t ++ '/' :: v) (fun hc => hd.1 hc.symm)]

/-- A slash-free pattern matches as a prefix of a slash-free stretch
irrespective of what follows the next slash. -/
theorem isPrefixOf_append_slash (p : List Char) (hp : '/' ∉ p) :
    ∀ (u v : List Char), '/' ∉ u →
      p.isPrefixOf (u ++ '/' :: v) = p.isPrefixOf u := by
  induction p with
  | nil => intro u v _; cases u <;> rfl
  | cons a p' ihp =>
    intro u v hu
    simp only [List.mem_cons, not_or] at hp
    cases u with
    | nil =>
      simp only [List.nil_append]
      simp [List.isPrefixOf, beq_eq_false_iff_ne.mpr (fun hc => hp.1 hc.symm)]
    | cons b u' =>
      simp only [List.mem_cons, not_or] at hu
      rw [List.cons_append, List.isPrefixOf, List.isPrefixOf, ihp hp.2 u' v hu.2]

/-- The tail piece never reads past the next slash. -/
theorem matchB_append_slash (u v : List Char) (hu : '/' ∉ u) :
    matchB (u ++ '/' :: v) = matchB u := by
  induction u with
  | nil => simp [matchB]
  | cons x t ih =>
    simp only [List.mem_cons, not_or] at hu
    rw [List.cons_append, matchB, matchB, ih hu.2, ← List.cons_append,
      isPrefixOf_append_slash stackLit (by decide) (x :: t) v
        (by simp only [List.mem_cons, not_or]; exact hu)]

/-- The characters of the api-gateway segment with its leading dash. -/
def sagChars : List Char := ['-','a','p','i','-','g','a','t','e','w','a','y','-','s','t','a','c','k']

/-- The characters of the api-gateway stack identifier. -/
def agsChars : List Char := ['a','p','i','-','g','a','t','e','w','a','y','-','s','t','a','c','k']

/-- The characters of the vpc stack identifier. -/
def vpcChars : List Char := ['v','p','c','-','s','t','a','c','k']

/-- On a payload with one placeholder directly before the api-gateway marker
segment, the head piece captures the placeholder together with that
segment: the greedy leading class finds no later placeholder, the
placeholder matches exactly, and the tail piece stops at the marker. -/
theorem matchA_interp_capture (inner tail : List Char)
    (hne : inner ≠ []) (h1 : '}' ∉ inner) (h2 : '$' ∉ inner) (h3 : '/' ∉ inner)
    (htail : tail = [] ∨ ∃ v, tail = '/' :: v) :
    matchA ('$' :: '{' :: (inner ++ '}' :: (sagChars ++ tail))) =
      some ('$' :: '{' :: (inner ++ '}' :: sagChars)) := by
  have hA : matchA ('{' :: (inner ++ '}' :: (sagChars ++ tail))) = none := by
    rcases htail with rfl | ⟨v, rfl⟩
    · rw [List.append_nil]
      apply matchA_of_no_dollar
      simp only [List.mem_cons, List.mem_append, not_or]
      exact ⟨by decide, h2, by decide, by decide⟩
    · have hre : ('{' :: (inner ++ '}' :: (sagChars ++ '/' :: v))) =
          ('{' :: (inner ++ '}' :: sagChars)) ++ '/' :: v := by
        simp
      rw [hre]
      apply matchA_append_slash
      · simp only [List.mem_cons, List.mem_append, not_or]
        exact ⟨by decide, h2, by decide, by decide⟩
      · simp only [List.mem_cons, List.mem_append, not_or]
        exact ⟨by decide, h3, by decide, by decide⟩
  rw [matchA, if_neg (by decide), hA,
    placeholderAt_exact inner (sagChars ++ tail) h1 hne]
  have hB : matchB (sagChars ++ tail) = some sagChars := by
    rcases htail with rfl | ⟨v, rfl⟩
    · rw [List.append_nil]; decide
    · rw [matchB_append_slash sagChars v (by decide)]; decide
  dsimp only
  rw [hB]

/-- The interpolated-stack pattern matches at the leading slash and captures
the placeholder with the api-gateway segment. -/
theorem matchInterp_capture (inner tail : List Char)
    (hne : inner ≠ []) (h1 : '}' ∉ inner) (h2 : '$' ∉ inner) (h3 : '/' ∉ inner)
    (htail : tail = [] ∨ ∃ v, tail = '/' :: v) :
    matchInterp ('/' :: '$' :: '{' :: (inner ++ '}' :: (sagChars ++ tail))) =
      some ('$' :: '{' :: (inner ++ '}' :: sagChars)) := by
  rw [matchInterp, if_pos rfl, matchA_interp_capture inner tail hne h1 h2 h3 htail]

/-- The first structural pattern of the reducer matches the capture at its
head and extracts the api-gateway identifier. -/
theorem matchP1_capture (inner : List Char) (hne : inner ≠ []) (h1 : '}' ∉ inner) :
    matchP1 ('$' :: '{' :: (inner ++ '}' :: sagChars)) = some agsChars := by
  rw [matchP1, placeholderAt_exact inner sagChars h1 hne]
  rfl

/-- The base-name reducer maps the capture to the api-gateway identifier. -/
theorem extractBase_capture (inner : List Char) (hne : inner ≠ []) (h1 : '}' ∉ inner) :
    extractBaseStackNameL ('$' :: '{' :: (inner ++ '}' :: sagChars)) = some agsChars := by
  unfold extractBaseStackNameL
  rw [matchP1_capture inner hne h1]

/-- A separator head opens an empty first segment. -/
theorem splitChar_cons_sep (c : Char) (t : List Char) :
    splitChar c (c :: t) = [] :: splitChar c t := by
  simp [splitChar]

/-- Splitting never yields an empty segment list. -/
theorem splitChar_ne_nil (c : Char) (s : List Char) : splitChar c s ≠ [] := by
  induction s with
  | nil => simp [splitChar]
  | cons x t ih =>
    rw [splitChar]
    by_cases hx : x = c
    · simp [hx]
    · simp only [if_neg hx]
      cases h : splitChar c t with
      | nil => exact absurd h ih
      | cons a b => simp

/-- A separator-free block followed by a separator is the first segment. -/
theorem splitChar_append_sep (c : Char) (u r : List Char) (hu : c ∉ u) :
    splitChar c (u ++ c :: r) = u :: splitChar c r := by
  induction u with
  | nil => rw [List.nil_append, splitChar_cons_sep]
  | cons x u' ih =>
    simp only [List.mem_cons, not_or] at hu
    rw [List.cons_append, splitChar, if_neg (fun hc => hu.1 hc.symm), ih hu.2]

/-- The segment loop returns the vpc identifier as soon as it heads the
segment list: it contains the marker token and no wildcard. -/
theorem findStackPart_vpc (L : List (List Char)) :
    findStackPart (vpcChars :: L) = some vpcChars := by
  rw [findStackPart]
  rw [if_neg (by decide : ¬ (vpcChars.contains '*' && containsSeq stackWord vpcChars) = true)]
  rw [if_pos (by decide : (containsSeq stackWord vpcChars || isKnownStackName vpcChars) = true)]

/-- Class one of C7: a plain payload naming the vpc stack in its first segment,
with no placeholder anywhere after it, extracts exactly the vpc identifier. -/
theorem extract_vpc_plain (rest : List Char) (h : '$' ∉ rest) :
    extractStackFromSSMPathL ('/' :: (vpcChars ++ '/' :: rest)) = some vpcChars := by
  have hnod : '$' ∉ ('/' :: (vpcChars ++ '/' :: rest)) := by
    simp only [List.mem_cons, List.mem_append, not_or]
    exact ⟨by decide, by decide, by decide, h⟩
  unfold extractStackFromSSMPathL
  rw [matchInterp_of_no_dollar _ hnod]
  dsimp only
  rw [show replacePH '*' ('/' :: (vpcChars ++ '/' :: rest)) =
      ('/' :: (vpcChars ++ '/' :: rest)) from replacePHFuel_of_no_dollar '*' _ _ hnod]
  rw [splitChar_cons_sep, splitChar_append_sep '/' vpcChars rest (by decide)]
  rw [List.filter_cons_of_neg (by decide), List.filter_cons_of_pos (by decide)]
  rw [findStackPart_vpc]

/-- Class two of C7: a payload whose first segment is a single placeholder
directly before the api-gateway marker suffix extracts exactly the
api-gateway identifier. -/
theorem extract_interp_sag (inner tail : List Char)
    (hne : inner ≠ []) (h1 : '}' ∉ inner) (h2 : '$' ∉ inner) (h3 : '/' ∉ inner)
    (htail : tail = [] ∨ ∃ v, tail = '/' :: v) :
    extractStackFromSSMPathL ('/' :: '$' :: '{' :: (inner ++ '}' :: (sagChars ++ tail)))
      = some agsChars := by
  unfold extractStackFromSSMPathL
  rw [matchInterp_capture inner tail hne h1 h2 h3 htail]
  exact extractBase_capture inner hne h1

/-- C7: parameter-path extraction is pinned on the two input classes — every
plain vpc-stack path without placeholders yields exactly the vpc
identifier, and every payload with a single nested placeholder immediately
preceding the api-gateway marker suffix yields exactly the api-gateway
identifier. -/
theorem claim7_pinned_extraction :
    (∀ rest : List Char, '$' ∉ rest →
      extractStackFromSSMPathL ('/' :: (vpcChars ++ '/' :: rest)) = some vpcChars)
    ∧ (∀ inner tail : List Char,
        inner ≠ [] → '}' ∉ inner → '$' ∉ inner → '/' ∉ inner →
        (tail = [] ∨ ∃ v, tail = '/' :: v) →
        extractStackFromSSMPathL ('/' :: '$' :: '{' :: (inner ++ '}' :: (sagChars ++ tail)))
          = some agsChars) :=
  ⟨extract_vpc_plain, extract_interp_sag⟩

/-- Witness for C7 at the two canonical payloads of the specification. -/
theorem claim7_pinned_extraction_witness :
    (('$' ∉ ("vpc-id").toList)
      ∧ extractStackFromSSMPathL ('/' :: (vpcChars ++ '/' :: ("vpc-id").toList))
          = some vpcChars)
    ∧ ((("self:custom.stage").toList ≠ []
        ∧ '}' ∉ ("self:custom.stage").toList
        ∧ '$' ∉ ("self:custom.stage").toList
        ∧ '/' ∉ ("self:custom.stage").toList
        ∧ (("/rest-api-id").toList = [] ∨ ∃ v, ("/rest-api-id").toList = '/' :: v))
      ∧ extractStackFromSSMPathL ('/' :: '$' :: '{' ::
          (("self:custom.stage").toList ++ '}' :: (sagChars ++ ("/rest-api-id").toList)))
          = some agsChars) :=
  ⟨⟨by decide, claim7_pinned_extraction.1 (("vpc-id").toList) (by decide)⟩,
   ⟨⟨by decide, by decide, by decide, by decide,
      Or.inr ⟨("rest-api-id").toList, by decide⟩⟩,
    claim7_pinned_extraction.2 (("self:custom.stage").toList) (("/rest-api-id").toList)
      (by decide) (by decide) (by decide) (by decide)
      (Or.inr ⟨("rest-api-id").toList, by decide⟩)⟩⟩

end Orcdk
